import Mathlib

/-!
# Shallow embedding of the `pgscatalog_utils` ancestry pipeline

This file embeds the data handling of
`pgscatalog_utils/ancestry/read.py` (loading PCA projections, sample
metadata and aggregated scores) and of the orchestrator
`pgscatalog_utils/ancestry/ancestry_analysis.py` (merging, running the
assign/adjust stages, and shaping the two output tables), and proves the
behavioural properties stated about them.

Tables are modelled as lists of rows (index keys paired with values);
column layouts as lists of column names.  Pandas operations used by the
source — `rstrip`-based renaming, column filtering, index-aligned inner
`merge`, `concat`, `melt` and `pivot` — are embedded as executable Lean
functions on those lists.
-/

namespace Pgsc

/-! ## `read.py`: `read_pgs` (aggregated-score loading) -/

/-- Python `str.rstrip(chars)`: removes the longest run of trailing
characters that belong to the character *set* `chars` (not the literal
suffix), as used in `read.py` line 82: `x.rstrip('_SUM')`. -/
def pyRstrip (s : String) (chars : List Char) : String :=
  List.asString (List.reverse (List.dropWhile (fun c => chars.contains c) s.data.reverse))

/-- The character set that Python builds from the string `'_SUM'` when it
is passed to `rstrip`. -/
def sumChars : List Char := ['_', 'S', 'U', 'M']

/-- Python `x.endswith('_SUM')` (`read.py` line 81). -/
def endsWithSUM (s : String) : Bool := List.isSuffixOf "_SUM".data s.data

/-- Column transform of `read_pgs` (`read.py` lines 80–83): with
`onlySUM`, keep the columns whose names end in `'_SUM'` and rename each
kept column with `x.rstrip('_SUM')`; otherwise keep all columns. -/
def read_pgs_cols (cols : List String) (onlySUM : Bool) : List String :=
  if onlySUM then
    (cols.filter endsWithSUM).map (fun x => pyRstrip x sumChars)
  else cols

/-! ## `read.py`: `extract_ref_psam_cols` (sample-metadata header) -/

/-- `psam.rename({'#IID': 'IID'}, axis=1)` (`read.py` line 60): every
column labelled `#IID` is relabelled `IID`. -/
def renameHashIID (cols : List String) : List String :=
  cols.map (fun c => if c = "#IID" then "IID" else c)

/-- `psam.drop(['#FID'], axis=1)` (`read.py` line 62): every column
labelled `#FID` is removed. -/
def dropHashFID (cols : List String) : List String :=
  cols.filter (fun c => decide (c ≠ "#FID"))

/-- Header normalisation of `extract_ref_psam_cols` (`read.py` lines
57–64): `match psam.columns[0]` with cases `'#IID'` (rename to `IID`),
`'#FID'` (drop the column) and a catch-all `assert False, "Invalid
columns"`, modelled as `Except.error`. -/
def extract_ref_psam_cols_header : List String → Except String (List String)
  | [] => Except.error "no columns"
  | c :: rest =>
    if c = "#IID" then Except.ok (renameHashIID (c :: rest))
    else if c = "#FID" then Except.ok (dropHashFID (c :: rest))
    else Except.error "Invalid columns"

/-! ## `read.py`: `read_pcs` (PCA-projection loading) -/

/-- The whitespace characters removed by Python `str.strip()`. -/
def isSpaceChar (c : Char) : Bool :=
  [' ', '\t', '\n', '\r', Char.ofNat 11, Char.ofNat 12].contains c

/-- Python `x.strip()`: remove leading and trailing whitespace. -/
def pyStrip (s : String) : String :=
  List.asString (((s.data.dropWhile isSpaceChar).reverse.dropWhile isSpaceChar).reverse)

/-- `[x.strip() for x in infile.readlines()]` (`read.py` line 46). -/
def stripLines (lines : List String) : List String := lines.map pyStrip

/-- `proj['Unrelated'] = True` (`read.py` line 44): every sample starts
flagged unrelated. -/
def initUnrelated (iids : List String) : List (String × Option Bool) :=
  iids.map (fun i => (i, some true))

/-- `proj.loc[proj.index...isin(IDs_related), 'Unrelated'] = False`
(`read.py` line 47): samples whose identifier is in the related list are
re-flagged `False`. -/
def flagRelated (relatedIds : List String) :
    List (String × Option Bool) → List (String × Option Bool) :=
  List.map (fun p => if relatedIds.contains p.1 then (p.1, some false) else p)

/-- The `Unrelated` column produced by `read_pcs` (`read.py` lines
42–49): with a related-ID file its lines are stripped and used to flag
samples; without one the column is `np.nan` (modelled `none`). -/
def read_pcs_unrelated (relatedLines : Option (List String))
    (iids : List String) : List (String × Option Bool) :=
  match relatedLines with
  | some lines => flagRelated (stripLines lines) (initUnrelated iids)
  | none => iids.map (fun i => (i, none))

/-- The (sampleset, IID) index built by the `read_pcs` loop (`read.py`
lines 19–30): each input file's rows are tagged with the single `dataset`
label and appended (`pd.concat`) to the frame built so far.  Each file is
modelled by the list of its sample identifiers. -/
def read_pcs_index (dataset : String) (files : List (List String)) :
    List (String × String) :=
  files.foldl (fun proj file => proj ++ file.map (fun iid => (dataset, iid))) []

/-- A column of the frame returned by `read_pcs`: a principal-component
column `PC<k>` or the appended `Unrelated` flag column. -/
inductive PcsCol where
  | pc (k : Nat)
  | unrelated
deriving DecidableEq

/-- The PC-dropping step of `read_pcs` (`read.py` lines 33–39): when
`nPCs` is truthy (neither `None` nor `0`), collect into `dropcols` every
column `x` with `int(x[2:]) > nPCs` and drop them.  Columns are modelled
by their parsed index `k` (the column `PC<k>`). -/
def read_pcs_dropPCs (cols : List Nat) (nPCs : Option Nat) : List Nat :=
  match nPCs with
  | none => cols
  | some n =>
    if n = 0 then cols
    else
      let dropcols := cols.filter (fun k => decide (n < k))
      cols.filter (fun k => !(dropcols.contains k))

/-- The full column layout returned by `read_pcs`: the surviving PC
columns followed by the `Unrelated` column appended afterwards
(`read.py` lines 44 and 49). -/
def read_pcs_result_cols (cols : List Nat) (nPCs : Option Nat) : List PcsCol :=
  (read_pcs_dropPCs cols nPCs).map PcsCol.pc ++ [PcsCol.unrelated]

/-! ## `ancestry_analysis.py`: merging, pipeline sequencing, outputs -/

/-- Composite row key used throughout: (sampleset, IID). -/
abbrev SKey := String × String

/-- `pd.merge(left, right, left_index=True, right_index=True)`
(`ancestry_analysis.py` lines 35–36 and `read.py` line 68): pandas
defaults to an *inner* join, so the result holds one row per pair of
left/right rows sharing a key. -/
def mergeInner {α β : Type} (left : List (SKey × α)) (right : List (SKey × β)) :
    List (SKey × α × β) :=
  left.flatMap (fun p =>
    (right.filter (fun q => decide (q.1 = p.1))).map (fun q => (p.1, p.2, q.2)))

/-- `t.hasKey k`: some row of `t` is indexed by `k`. -/
def hasKey {α : Type} (t : List (SKey × α)) (k : SKey) : Bool :=
  t.any (fun p => decide (p.1 = k))

/-- The straight-line body of `ancestry_analysis`
(`ancestry_analysis.py` lines 16–79): load, assign, adjust, then write
the two outputs.  Stages are modelled as `Except` computations (a Python
exception propagates); the returned list holds the files written, which
the source only does after all three stages (lines 76 and 79). -/
def ancestry_analysis_run {α β γ : Type} (load : Except String α)
    (assign : α → Except String β) (adjust : β → Except String γ)
    (d_target : String) : Except String (List String) :=
  match load with
  | Except.error e => Except.error e
  | Except.ok l =>
    match assign l with
    | Except.error e => Except.error e
    | Except.ok a =>
      match adjust a with
      | Except.error e => Except.error e
      | Except.ok _ =>
        Except.ok [d_target ++ "_pgs.txt.gz", d_target ++ "_ancestry.txt.gz"]

/-- The files a run leaves on disk: none when it aborted with an error. -/
def filesWritten : Except String (List String) → List String
  | Except.ok fs => fs
  | Except.error _ => []

/-- A processed sample row, as indexed in `ancestry_analysis`. -/
structure SampleRow where
  sampleset : String
  iid : String
deriving DecidableEq

/-- `final_df = pd.concat([target_df, reference_df])` after
`reference_df['REFERENCE'] = True` and `target_df['REFERENCE'] = False`
(`ancestry_analysis.py` lines 64–66): each row paired with its
`REFERENCE` flag. -/
def final_df (target reference : List SampleRow) : List (SampleRow × Bool) :=
  target.map (fun r => (r, false)) ++ reference.map (fun r => (r, true))

/-- `final_df.drop(scorecols, axis=1)` (`ancestry_analysis.py` line 79):
the ancestry output keeps every column except the raw PGS score
columns. -/
def ancestryOutputCols (cols scorecols : List String) : List String :=
  cols.filter (fun c => !(scorecols.contains c))

/-! ## `ancestry_analysis.py`: melt / split / pivot of the adjusted PGS -/

/-- Split a character list at the first `'|'`. -/
def splitBarAux : List Char → List Char × List Char
  | [] => ([], [])
  | c :: rest =>
    if c = '|' then ([], rest)
    else
      let r := splitBarAux rest
      (c :: r.1, r.2)

/-- `adjpgs.variable.str.split("|", expand=True)` into the `method` and
`PGS` parts (`ancestry_analysis.py` line 71); adjusted-score columns are
named `method|PGS`. -/
def splitVar (s : String) : String × String :=
  (List.asString (splitBarAux s.data).1, List.asString (splitBarAux s.data).2)

/-- The wide adjusted-score table `adjpgs`: rows indexed by
(sampleset, IID), one `method|PGS`-named numeric column per cell. -/
abbrev WideTable := List (SKey × List (String × Int))

/-- `adjpgs.melt(ignore_index=False)` (`ancestry_analysis.py` line 70):
one long row (index, variable, value) per cell of the wide table. -/
def meltRows (wide : WideTable) : List (SKey × String × Int) :=
  wide.flatMap (fun p => p.2.map (fun c => (p.1, c.1, c.2)))

/-- Row index of the pivoted output: (sampleset, IID, PGS). -/
abbrev PivotIdx := String × String × String

/-- The pivot row index a melted row lands on:
`index=['sampleset', 'IID', 'PGS']` (`ancestry_analysis.py` line 75). -/
def pivotIndexOf (k : SKey) (v : String) : PivotIdx := (k.1, k.2, (splitVar v).2)

/-- The distinct (sampleset, IID, PGS) row indices of the pivoted
table. -/
def pivotIndex (long : List (SKey × String × Int)) : List PivotIdx :=
  (long.map (fun r => pivotIndexOf r.1 r.2.1)).dedup

/-- `.pivot(index=['sampleset', 'IID', 'PGS'], columns='method',
values='value')` (`ancestry_analysis.py` line 75): one row per distinct
(sampleset, IID, PGS), holding one (method, value) cell per melted row
that lands on it. -/
def pivotTable (long : List (SKey × String × Int)) :
    List (PivotIdx × List (String × Int)) :=
  (pivotIndex long).map (fun idx =>
    (idx, long.filterMap (fun r =>
      if pivotIndexOf r.1 r.2.1 = idx then some ((splitVar r.2.1).1, r.2.2)
      else none)))

/-! ## `ancestry/tools.py`: threshold selection -/

/-- Modelled from the spec: `choose_pval_threshold` is defined in
`pgscatalog_utils/ancestry/tools.py`, which is not among the sources
here (only its call site at `ancestry_analysis.py` line 41 is).  The
spec (§4.2): given a requested false-positive tolerance (p-value) or
`None`, return `None` for `None` (no filtering) and otherwise the
p-value directly. -/
def choose_pval_threshold (pThreshold : Option ℚ) : Option ℚ := pThreshold

/-! ## Helper lemmas -/

theorem renameHashIID_eq_self {l : List String} (h : "#IID" ∉ l) :
    renameHashIID l = l := by
  have h2 : l.map (fun c => if c = "#IID" then "IID" else c) = l.map id :=
    List.map_congr_left (fun a ha => by
      have hne : a ≠ "#IID" := fun hc => h (hc ▸ ha)
      simp [hne])
  simpa [renameHashIID] using h2

theorem dropHashFID_eq_self {l : List String} (h : "#FID" ∉ l) :
    dropHashFID l = l :=
  List.filter_eq_self.mpr (fun a ha =>
    decide_eq_true (fun hc => h (hc ▸ ha)))

theorem read_pcs_index_foldl (dataset : String) (files : List (List String))
    (acc : List (String × String)) :
    files.foldl (fun proj file => proj ++ file.map (fun iid => (dataset, iid))) acc
      = acc ++ (files.flatten).map (fun iid => (dataset, iid)) := by
  induction files generalizing acc with
  | nil => simp
  | cons f t ih =>
    simp [List.foldl_cons, ih, List.map_append, List.append_assoc]

/-! ## Theorems about the claims -/

/-- C1: evaluation of `read_pgs`'s column transform at a failing input.
With `onlySUM` the selection keeps exactly the `'_SUM'`-suffixed columns,
but the rename `x.rstrip('_SUM')` does not remove the literal suffix: the
aggregated-score column `PGSUS_SUM` (score accession `PGSUS`) is
retained and renamed to `PG`, not `PGSUS`, because `rstrip` removes every
trailing character belonging to the set `{_, S, U, M}`. -/
theorem read_pgs_cols_rstrip_failing :
    read_pgs_cols ["PGSUS_SUM", "PGSUS_AVG"] true = ["PG"] ∧
    ("PG" : String) ≠ "PGSUS" :=
  ⟨by decide, by decide⟩

/-- C2: header normalisation of `extract_ref_psam_cols`: a `#IID`-led
header is renamed to an `IID`-led one; in the psam layout led by the
family-id column (`#FID IID ...`) that column is dropped, leaving `IID`
first — in both cases a single `IID` identifier column results; any
other first column fails with the assertion message `Invalid columns`. -/
theorem extract_ref_psam_cols_header_spec (rest : List String)
    (h1 : "#IID" ∉ rest) (h2 : "#FID" ∉ rest) (h3 : "IID" ∉ rest) :
    extract_ref_psam_cols_header ("#IID" :: rest) = Except.ok ("IID" :: rest) ∧
    extract_ref_psam_cols_header ("#FID" :: "IID" :: rest)
      = Except.ok ("IID" :: rest) ∧
    ("IID" :: rest).count "IID" = 1 ∧
    (∀ c rest2, c ≠ "#IID" → c ≠ "#FID" →
      extract_ref_psam_cols_header (c :: rest2)
        = Except.error "Invalid columns") := by
  refine ⟨?_, ?_, ?_, ?_⟩
  · have hr : renameHashIID ("#IID" :: rest) = "IID" :: rest := by
      simp [renameHashIID]
      simpa [renameHashIID] using renameHashIID_eq_self h1
    simp [extract_ref_psam_cols_header, hr]
  · have hd : dropHashFID ("#FID" :: "IID" :: rest) = "IID" :: rest := by
      have : dropHashFID ("IID" :: rest) = "IID" :: rest :=
        dropHashFID_eq_self (by
          intro hc
          rcases List.mem_cons.mp hc with hc1 | hc2
          · exact absurd hc1.symm (by decide)
          · exact h2 hc2)
      simpa [dropHashFID] using this
    simp [extract_ref_psam_cols_header, hd]
  · rw [List.count_cons]
    simp [List.count_eq_zero.mpr h3]
  · intro c rest2 hc1 hc2
    simp [extract_ref_psam_cols_header, hc1, hc2]

/-- C2 witness: the spec applied to the concrete psam headers
`#FID IID SuperPop` and `FOO IID`. -/
theorem extract_ref_psam_cols_header_spec_witness :
    extract_ref_psam_cols_header ["#FID", "IID", "SuperPop"]
      = Except.ok ["IID", "SuperPop"] ∧
    extract_ref_psam_cols_header ["FOO", "IID"]
      = Except.error "Invalid columns" := by
  have h := extract_ref_psam_cols_header_spec ["SuperPop"]
    (by decide) (by decide) (by decide)
  exact ⟨h.2.1, h.2.2.2 "FOO" ["IID"] (by decide) (by decide)⟩

/-- C3: the `Unrelated` flag of `read_pcs`: when a related-ID list is
supplied, a sample is flagged `false` exactly when its identifier is
among the stripped lines of the list, `true` otherwise; when no list is
supplied, every sample's flag is `np.nan` (`none`). -/
theorem read_pcs_unrelated_spec (lines iids : List String) :
    read_pcs_unrelated (some lines) iids
      = iids.map (fun i => (i, some (!(stripLines lines).contains i))) ∧
    read_pcs_unrelated none iids
      = iids.map (fun i => (i, (none : Option Bool))) := by
  constructor
  · simp only [read_pcs_unrelated, flagRelated, initUnrelated, List.map_map]
    refine List.map_congr_left ?_
    intro i _
    by_cases h : i ∈ stripLines lines
    · simp [Function.comp, h]
    · simp [Function.comp, h]
  · rfl

/-- C4 counterexample: two normalization methods for the same
(sample, score) yield two melted records but a single row of the pivoted
output — the written table has one row per (dataset, sample, PGS), with
one column per method, not one row per (dataset, sample, PGS, method). -/
theorem adjpgs_pivot_one_row_per_pgs :
    pivotTable (meltRows [(("cineca", "s1"),
        [("mean|PGS1", 1), ("empirical|PGS1", 2)])])
      = [(("cineca", "s1", "PGS1"), [("mean", 1), ("empirical", 2)])] ∧
    (pivotTable (meltRows [(("cineca", "s1"),
        [("mean|PGS1", 1), ("empirical|PGS1", 2)])])).length = 1 ∧
    (meltRows [(("cineca", "s1"),
        [("mean|PGS1", 1), ("empirical|PGS1", 2)])]).length = 2 :=
  ⟨by decide, by decide, by decide⟩

/-- C4 (amended): the pivoted adjusted-score output has exactly one row
per distinct (dataset, sample id, PGS accession), these row keys are
unique, and every melted (sample, method, value) record lands as a
(method, value) cell of its row — so multiple methods for the same
(sample, score) coexist without collision. -/
theorem adjpgs_pivot_spec (wide : WideTable) :
    ((pivotTable (meltRows wide)).map Prod.fst).Nodup ∧
    (pivotTable (meltRows wide)).map Prod.fst = pivotIndex (meltRows wide) ∧
    (∀ k v x, (k, v, x) ∈ meltRows wide →
      ∃ cells, (pivotIndexOf k v, cells) ∈ pivotTable (meltRows wide) ∧
        ((splitVar v).1, x) ∈ cells) := by
  have hmap : (pivotTable (meltRows wide)).map Prod.fst
      = pivotIndex (meltRows wide) := by
    simp only [pivotTable, List.map_map]
    exact (List.map_congr_left (fun idx _ => rfl)).trans
      (List.map_id (pivotIndex (meltRows wide)))
  refine ⟨?_, hmap, ?_⟩
  · rw [hmap]
    exact List.nodup_dedup _
  · intro k v x hm
    have hidx : pivotIndexOf k v ∈ pivotIndex (meltRows wide) :=
      List.mem_dedup.mpr (List.mem_map.mpr ⟨(k, v, x), hm, rfl⟩)
    refine ⟨(meltRows wide).filterMap (fun r =>
        if pivotIndexOf r.1 r.2.1 = pivotIndexOf k v
        then some ((splitVar r.2.1).1, r.2.2) else none), ?_, ?_⟩
    · exact List.mem_map.mpr ⟨pivotIndexOf k v, hidx, rfl⟩
    · exact List.mem_filterMap.mpr ⟨(k, v, x), hm, by simp⟩

/-- C4 witness: the amended spec applied to a concrete wide table with
two methods for one (sample, score). -/
theorem adjpgs_pivot_spec_witness :
    ∃ cells, (("cineca", "s1", "PGS1"), cells)
        ∈ pivotTable (meltRows [(("cineca", "s1"),
            [("mean|PGS1", 1), ("empirical|PGS1", 2)])]) ∧
      ("mean", (1 : Int)) ∈ cells := by
  have h := (adjpgs_pivot_spec [(("cineca", "s1"),
      [("mean|PGS1", 1), ("empirical|PGS1", 2)])]).2.2
    ("cineca", "s1") "mean|PGS1" 1 (by decide)
  exact h

/-- C5: `ancestry_analysis` writes no output file when its load, assign
or adjust stage fails — the two output tables appear only after the
whole load–assign–adjust sequence has succeeded. -/
theorem ancestry_analysis_no_partial_output {α β γ : Type}
    (load : Except String α) (assign : α → Except String β)
    (adjust : β → Except String γ) (d : String) :
    (∀ e, load = Except.error e →
      filesWritten (ancestry_analysis_run load assign adjust d) = []) ∧
    (∀ l e, load = Except.ok l → assign l = Except.error e →
      filesWritten (ancestry_analysis_run load assign adjust d) = []) ∧
    (∀ l a e, load = Except.ok l → assign l = Except.ok a →
      adjust a = Except.error e →
      filesWritten (ancestry_analysis_run load assign adjust d) = []) ∧
    (∀ l a g, load = Except.ok l → assign l = Except.ok a →
      adjust a = Except.ok g →
      filesWritten (ancestry_analysis_run load assign adjust d)
        = [d ++ "_pgs.txt.gz", d ++ "_ancestry.txt.gz"]) := by
  refine ⟨?_, ?_, ?_, ?_⟩
  · intro e he
    simp [ancestry_analysis_run, he, filesWritten, Except.bind]
  · intro l e hl ha
    simp [ancestry_analysis_run, hl, ha, filesWritten, Except.bind]
  · intro l a e hl ha hj
    simp [ancestry_analysis_run, hl, ha, hj, filesWritten, Except.bind]
  · intro l a g hl ha hj
    simp [ancestry_analysis_run, hl, ha, hj, filesWritten, Except.bind]

/-- C5 witness: a run whose load stage fails writes nothing. -/
theorem ancestry_analysis_no_partial_output_witness :
    filesWritten (ancestry_analysis_run
      (Except.error "load failed" : Except String Unit)
      (fun _ => (Except.ok () : Except String Unit))
      (fun _ => (Except.ok () : Except String Unit)) "target") = [] :=
  (ancestry_analysis_no_partial_output
    (Except.error "load failed")
    (fun _ => Except.ok ()) (fun _ => Except.ok ()) "target").1 "load failed" rfl

/-- C6 counterexample: two projection files sharing the sample `HG001`
yield a duplicated (dataset, IID) key — `pd.concat` performs no
uniqueness check, so the composite key of the loaded table need not be
unique. -/
theorem read_pcs_index_duplicate_key :
    read_pcs_index "reference" [["HG001"], ["HG001"]]
      = [("reference", "HG001"), ("reference", "HG001")] ∧
    ¬ (read_pcs_index "reference" [["HG001"], ["HG001"]]).Nodup :=
  ⟨by decide, by decide⟩

/-- C6 (amended): `read_pcs` concatenates the rows of all projection
files, each tagged with the dataset label and indexed by
(dataset label, sample id); the composite key is unique whenever the
sample identifiers across the input files are pairwise distinct (the
code itself never validates this). -/
theorem read_pcs_index_spec (dataset : String) (files : List (List String)) :
    read_pcs_index dataset files
      = (files.flatten).map (fun iid => (dataset, iid)) ∧
    ((files.flatten).Nodup → (read_pcs_index dataset files).Nodup) := by
  have hbase : read_pcs_index dataset files
      = (files.flatten).map (fun iid => (dataset, iid)) := by
    simpa [read_pcs_index] using read_pcs_index_foldl dataset files []
  refine ⟨hbase, ?_⟩
  intro h
  rw [hbase]
  exact List.Nodup.map (fun a b hab => congrArg Prod.snd hab) h

/-- C6 witness: the amended spec applied to two disjoint projection
files. -/
theorem read_pcs_index_spec_witness :
    read_pcs_index "reference" [["HG001"], ["HG002"]]
      = [("reference", "HG001"), ("reference", "HG002")] ∧
    (read_pcs_index "reference" [["HG001"], ["HG002"]]).Nodup := by
  have h := read_pcs_index_spec "reference" [["HG001"], ["HG002"]]
  exact ⟨h.1.trans (by decide), h.2 (by decide)⟩

/-- C7: `choose_pval_threshold` returns `None` for `None` (no confidence
filtering) and any requested p-value unchanged. -/
theorem choose_pval_threshold_spec :
    choose_pval_threshold none = none ∧
    ∀ p : ℚ, choose_pval_threshold (some p) = some p :=
  ⟨rfl, fun _ => rfl⟩

/-- C8: the per-sample ancestry output: a row carries the `REFERENCE`
flag `true` exactly when it comes from the reference dataset and `false`
exactly when it comes from the target dataset, and its columns are all
the processed columns except the raw PGS score columns, which are
dropped. -/
theorem ancestry_output_spec (target reference : List SampleRow)
    (cols scorecols : List String) :
    (∀ r b, (r, b) ∈ final_df target reference ↔
      (b = false ∧ r ∈ target) ∨ (b = true ∧ r ∈ reference)) ∧
    (∀ c, c ∈ ancestryOutputCols cols scorecols ↔ c ∈ cols ∧ c ∉ scorecols) := by
  constructor
  · intro r b
    constructor
    · intro h
      rcases List.mem_append.mp h with h1 | h1
      · obtain ⟨a, ha, heq⟩ := List.mem_map.mp h1
        obtain ⟨rfl, rfl⟩ := Prod.mk.inj heq
        exact Or.inl ⟨rfl, ha⟩
      · obtain ⟨a, ha, heq⟩ := List.mem_map.mp h1
        obtain ⟨rfl, rfl⟩ := Prod.mk.inj heq
        exact Or.inr ⟨rfl, ha⟩
    · rintro (⟨rfl, hr⟩ | ⟨rfl, hr⟩)
      · exact List.mem_append.mpr (Or.inl (List.mem_map.mpr ⟨r, hr, rfl⟩))
      · exact List.mem_append.mpr (Or.inr (List.mem_map.mpr ⟨r, hr, rfl⟩))
  · intro c
    simp [ancestryOutputCols, List.mem_filter]

/-- C9: index-aligned `pd.merge` defaults to an inner join: the merged
table has a row with key `k` exactly when both operands do, so a sample
present in a PCA projection but missing from the aggregated-score table
(or metadata table) is silently dropped — no error, no row with missing
values. -/
theorem mergeInner_spec {α β : Type} (left : List (SKey × α))
    (right : List (SKey × β)) (k : SKey) :
    (∃ v w, (k, v, w) ∈ mergeInner left right) ↔
      (∃ a, (k, a) ∈ left) ∧ (∃ b, (k, b) ∈ right) := by
  constructor
  · rintro ⟨v, w, hm⟩
    simp only [mergeInner, List.mem_flatMap, List.mem_map, List.mem_filter,
      decide_eq_true_eq] at hm
    obtain ⟨p, hp, q, ⟨hq, hqk⟩, heq⟩ := hm
    have hk : p.1 = k := congrArg (fun t => t.1) heq
    subst hk
    refine ⟨⟨p.2, hp⟩, ⟨q.2, ?_⟩⟩
    rw [← hqk]
    exact hq
  · rintro ⟨⟨a, ha⟩, ⟨b, hb⟩⟩
    refine ⟨a, b, ?_⟩
    simp only [mergeInner, List.mem_flatMap]
    exact ⟨(k, a), ha,
      List.mem_map.mpr ⟨(k, b), List.mem_filter.mpr ⟨hb, by simp⟩, rfl⟩⟩

/-- C10: the PC-dropping step of `read_pcs` over columns `PC<k>`: with
`nPCs = n ≥ 1` exactly the columns with `k ≤ n` survive (followed by the
appended `Unrelated` column); with `nPCs = 0` or `nPCs` absent no PC
column is dropped. -/
theorem read_pcs_cols_spec (cols : List Nat) (n : Nat) (h : 1 ≤ n) :
    read_pcs_result_cols cols (some n)
      = (cols.filter (fun k => decide (k ≤ n))).map PcsCol.pc
          ++ [PcsCol.unrelated] ∧
    read_pcs_result_cols cols (some 0)
      = cols.map PcsCol.pc ++ [PcsCol.unrelated] ∧
    read_pcs_result_cols cols none
      = cols.map PcsCol.pc ++ [PcsCol.unrelated] := by
  refine ⟨?_, ?_, ?_⟩
  · have hn : n ≠ 0 := Nat.one_le_iff_ne_zero.mp h
    have hfe : read_pcs_dropPCs cols (some n)
        = cols.filter (fun k => decide (k ≤ n)) := by
      simp only [read_pcs_dropPCs, if_neg hn]
      refine List.filter_congr ?_
      intro k hk
      by_cases hkn : n < k
      · simp [Nat.not_le.mpr hkn, List.mem_filter]
        exact ⟨hk, hkn⟩
      · have hmem : (cols.filter (fun j => decide (n < j))).contains k = false := by
          simp [List.mem_filter, hkn]
        simp [hmem, Nat.not_lt.mp hkn]
    rw [read_pcs_result_cols, hfe]
  · simp [read_pcs_result_cols, read_pcs_dropPCs]
  · rfl

/-- C10 witness: the spec applied to columns `PC1 PC2 PC3` with
`nPCs = 2`. -/
theorem read_pcs_cols_spec_witness :
    read_pcs_result_cols [1, 2, 3] (some 2)
      = [PcsCol.pc 1, PcsCol.pc 2, PcsCol.unrelated] :=
  ((read_pcs_cols_spec [1, 2, 3] 2 (by decide)).1).trans (by decide)

end Pgsc
